import Mathlib

/-!
Shallow embedding of `pkg/cache/cache.go` (package `cache`) from the
proxy-host repository.

Modelling conventions:
* Go `time.Time` instants are `Int` nanosecond timestamps (`UnixNano`);
  Go `time.Duration` is an `Int` nanosecond count.  The current instant
  `now` is passed explicitly to each operation that reads the clock.
* The Go map `items map[string]Item` is modelled as a total function
  `String → Option (Item V)`; `none` means the key is absent.
* The stored `value interface{}` is a type parameter `V`.
* `Item.expiration` is the Go `int64` field; the zero value `0` (left
  untouched when no positive duration is resolved) is the never-expire
  sentinel, exactly as in the source where `Get` and the sweep only test
  `item.expiration > 0`.
* Locking (`sync.RWMutex`) serialises the operations; each public
  operation is embedded as a pure state transformer on the `Cache`
  record, which is faithful because every operation runs under the lock.
-/

namespace ProxyHost

/-- Go struct `Item`: a stored value together with its `expiration`
`int64` UnixNano timestamp (`0` = never expires). -/
structure Item (V : Type) where
  value : V
  expiration : Int
  deriving Repr, DecidableEq

/-- Go struct `Cache`: the `items` map and the `defaultExpiration`
duration.  The mutex, cleanup interval and stop channel have no
observable effect on the per-operation store semantics and are omitted. -/
structure Cache (V : Type) where
  items : String → Option (Item V)
  defaultExpiration : Int

namespace Cache

variable {V : Type}

/-- The duration-resolution step shared verbatim by `Set` and `Extend`
in the source: `if duration == 0 { duration = c.defaultExpiration }`. -/
def resolveTTL (c : Cache V) (duration : Int) : Int :=
  if duration = 0 then c.defaultExpiration else duration

/-- Go `func (c *Cache) Set(key string, value interface{}, duration time.Duration)`:
if `duration == 0` substitute `c.defaultExpiration`; if the resolved
duration is positive set `expiration = now + duration`, otherwise leave
the `int64` zero value; then overwrite the map entry. -/
def set (c : Cache V) (key : String) (value : V) (duration : Int)
    (now : Int) : Cache V :=
  let duration := c.resolveTTL duration
  let expiration : Int := if duration > 0 then now + duration else 0
  { c with
    items := fun k =>
      if k = key then some { value := value, expiration := expiration }
      else c.items k }

/-- Go `func (c *Cache) Get(key string) interface{}`: look the key up;
if absent return `nil`; if `item.expiration > 0` and
`time.Now().UnixNano() > item.expiration` return `nil`; otherwise
return the stored value.  `nil` is modelled as `none`. -/
def get (c : Cache V) (key : String) (now : Int) : Option V :=
  match c.items key with
  | none => none
  | some item =>
    if item.expiration > 0 then
      if now > item.expiration then none
      else some item.value
    else some item.value

/-- State-passing form of Go `Get`: the source body, run under the read
lock, performs only the map lookup and comparisons and never assigns to
`c.items`, so the post-state component is the receiver itself. -/
def getS (c : Cache V) (key : String) (now : Int) : Option V × Cache V :=
  match c.items key with
  | none => (none, c)
  | some item =>
    if item.expiration > 0 then
      if now > item.expiration then (none, c)
      else (some item.value, c)
    else (some item.value, c)

/-- Go `func (c *Cache) Delete(key string)`: `delete(c.items, key)`
(a no-op when the key is absent, as for the Go builtin `delete`). -/
def delete (c : Cache V) (key : String) : Cache V :=
  { c with items := fun k => if k = key then none else c.items k }

/-- Go `func (c *Cache) Extend(key string, duration time.Duration)`:
return unchanged if the key is absent; otherwise resolve
`duration == 0` to `c.defaultExpiration`, and if the resolved duration
is positive overwrite `item.expiration` with `now + duration`; finally
store the (possibly unchanged) item back into the map. -/
def extend (c : Cache V) (key : String) (duration : Int)
    (now : Int) : Cache V :=
  match c.items key with
  | none => c
  | some item =>
    let duration := c.resolveTTL duration
    let item :=
      if duration > 0 then { item with expiration := now + duration }
      else item
    { c with
      items := fun k => if k = key then some item else c.items k }

/-- Go `func (c *Cache) deleteExpiredItems()`: one sweep pass; for every
entry, delete it when `item.expiration > 0 && time.Now().UnixNano() >
item.expiration`.  The pass is modelled at a single instant `now`. -/
def deleteExpiredItems (c : Cache V) (now : Int) : Cache V :=
  { c with
    items := fun k =>
      match c.items k with
      | none => none
      | some item =>
        if item.expiration > 0 ∧ now > item.expiration then none
        else some item }

end Cache

/-! ## Concrete cache states used as test fixtures -/

/-- A cache whose only entry maps `"a"` to value `1` with concrete
expiration instant `5`; its default TTL is `0`. -/
def cacheA : Cache Nat :=
  { items := fun k =>
      if k = "a" then some { value := 1, expiration := 5 } else none,
    defaultExpiration := 0 }

/-- An empty cache with default TTL `0`. -/
def emptyCache : Cache Nat :=
  { items := fun _ => none, defaultExpiration := 0 }

/-- A cache whose only entry maps `"b"` to value `2` with concrete
expiration instant `3600`; its default TTL is `0`. -/
def cacheB : Cache Nat :=
  { items := fun k =>
      if k = "b" then some { value := 2, expiration := 3600 } else none,
    defaultExpiration := 0 }

/-! ## Helper characterizations -/

/-- After `Set`, the written key maps to the freshly built item. -/
theorem items_set_self {V : Type} (c : Cache V) (key : String) (v : V)
    (d now : Int) :
    (c.set key v d now).items key =
      some { value := v,
             expiration :=
               if c.resolveTTL d > 0 then now + c.resolveTTL d else 0 } := by
  unfold Cache.set
  simp

/-- After `Set`, every other key is untouched. -/
theorem items_set_other {V : Type} (c : Cache V) (key k : String) (v : V)
    (d now : Int) (hk : k ≠ key) :
    (c.set key v d now).items k = c.items k := by
  unfold Cache.set
  simp [hk]

/-- `Get` on a present item: absent iff the expiration is concrete and
strictly past, otherwise the stored value. -/
theorem get_eq {V : Type} (c : Cache V) (key : String) (now : Int)
    (item : Item V) (h : c.items key = some item) :
    c.get key now =
      if item.expiration > 0 ∧ now > item.expiration then none
      else some item.value := by
  unfold Cache.get
  rw [h]
  by_cases h1 : item.expiration > 0
  · by_cases h2 : now > item.expiration
    · simp [h1, h2]
    · simp [h1, h2]
  · simp [h1]

/-- `Get` on an absent key returns absent. -/
theorem get_none {V : Type} (c : Cache V) (key : String) (now : Int)
    (h : c.items key = none) :
    c.get key now = none := by
  unfold Cache.get
  rw [h]

/-- One sweep pass acts pointwise on the store. -/
theorem items_sweep {V : Type} (c : Cache V) (now : Int) (k : String) :
    (c.deleteExpiredItems now).items k =
      match c.items k with
      | none => none
      | some item =>
        if item.expiration > 0 ∧ now > item.expiration then none
        else some item := rfl

/-! ## Claims -/

/-- C1 (counterexample): in `cacheA` the key `"a"` is present with the
concrete (positive) expiration `5`; at the instant `now = 5`, which is
at (equal to) that expiration, `Get` returns the stored value `1`
rather than absent, because the source tests `now > item.expiration`
strictly. -/
theorem get_at_exact_expiration_returns_value :
    cacheA.items "a" = some { value := 1, expiration := 5 } ∧
    (0 : Int) < 5 ∧ (5 : Int) ≤ 5 ∧
    cacheA.get "a" 5 = some 1 := by
  refine ⟨rfl, by norm_num, by norm_num, ?_⟩
  rfl

/-- C1 (amended): for every key present with a concrete (positive)
expiration, `Get` at an instant strictly after that expiration returns
absent; at the exact instant `now = expiresAt` the stored value is
still returned. -/
theorem get_absent_strictly_after_expiration {V : Type} (c : Cache V)
    (key : String) (item : Item V) (now : Int)
    (hfind : c.items key = some item)
    (hconc : 0 < item.expiration)
    (hpast : item.expiration < now) :
    c.get key now = none := by
  unfold Cache.get
  rw [hfind]
  simp [hconc, hpast]

/-- Witness for C1 (amended) at `cacheA`, key `"a"`, instant `6 > 5`. -/
theorem get_absent_strictly_after_expiration_witness :
    cacheA.get "a" 6 = none :=
  get_absent_strictly_after_expiration cacheA "a"
    { value := 1, expiration := 5 } 6 rfl (by norm_num) (by norm_num)

/-- C3: `Set(k, v, ttl)` with `ttl > 0` stores expiration `now + ttl`,
and `Get(k)` at any instant strictly before that expiration returns
`v`. -/
theorem set_get_before_expiration {V : Type} (c : Cache V) (key : String)
    (v : V) (d now t : Int) (hd : 0 < d) (ht : t < now + d) :
    (c.set key v d now).get key t = some v := by
  have hdz : ¬ d = 0 := by omega
  have hitems := items_set_self c key v d now
  rw [show c.resolveTTL d = d from if_neg hdz, if_pos hd] at hitems
  rw [get_eq _ _ _ _ hitems]
  rw [if_neg (by simp only [not_and, not_lt]; intro _; omega)]

/-- Witness for C3 at the empty cache: `Set("k", 7, 5)` at instant
`100` then `Get("k")` at instant `104 < 105` returns `7`. -/
theorem set_get_before_expiration_witness :
    (emptyCache.set "k" 7 5 100).get "k" 104 = some 7 :=
  set_get_before_expiration emptyCache "k" 7 5 100 104
    (by norm_num) (by norm_num)

/-- C2: `Set(k, v, ttl)` with positive resolved ttl (at a non-negative
UnixNano instant `now`) followed by `Get(k)` at an instant strictly
after `now + ttl` returns absent, both when no sweep pass has run and
when one sweep pass has run at an arbitrary instant `u` in between. -/
theorem set_get_absent_past_ttl {V : Type} (c : Cache V) (key : String)
    (v : V) (d now t u : Int) (hnow : 0 ≤ now)
    (hpos : 0 < c.resolveTTL d) (ht : now + c.resolveTTL d < t) :
    (c.set key v d now).get key t = none ∧
    ((c.set key v d now).deleteExpiredItems u).get key t = none := by
  have hitems := items_set_self c key v d now
  rw [if_pos hpos] at hitems
  constructor
  · rw [get_eq _ _ _ _ hitems]
    rw [if_pos ⟨by show (0 : Int) < now + c.resolveTTL d; omega,
                by show now + c.resolveTTL d < t; omega⟩]
  · have hsw := items_sweep (c.set key v d now) u key
    simp only [hitems] at hsw
    by_cases hu : now + c.resolveTTL d < u
    · rw [if_pos ⟨by show (0 : Int) < now + c.resolveTTL d; omega,
                  by show now + c.resolveTTL d < u; exact hu⟩] at hsw
      exact get_none _ _ _ hsw
    · rw [if_neg (by
        show ¬((0 : Int) < now + c.resolveTTL d ∧ now + c.resolveTTL d < u)
        omega)] at hsw
      rw [get_eq _ _ _ _ hsw]
      rw [if_pos ⟨by show (0 : Int) < now + c.resolveTTL d; omega,
                  by show now + c.resolveTTL d < t; omega⟩]

/-- Witness for C2: set at instant `100` with ttl `5`, sweep at instant
`103`, read at instant `106`. -/
theorem set_get_absent_past_ttl_witness :
    (emptyCache.set "k" 7 5 100).get "k" 106 = none ∧
    ((emptyCache.set "k" 7 5 100).deleteExpiredItems 103).get "k" 106 =
      none :=
  set_get_absent_past_ttl emptyCache "k" 7 5 100 106 103 (by norm_num)
    (by norm_num [Cache.resolveTTL, emptyCache])
    (by norm_num [Cache.resolveTTL, emptyCache])

/-- C10: `Set(k, v, ttl)` with strictly negative `ttl` does not
substitute the default TTL (only an exactly-zero ttl is substituted);
the negative resolved duration is not positive, so the entry receives
the never-expire sentinel `0` and `Get(k)` returns `v` at every
instant. -/
theorem set_negative_ttl_never_expires {V : Type} (c : Cache V)
    (key : String) (v : V) (d now t : Int) (hneg : d < 0) :
    c.resolveTTL d = d ∧
    (c.set key v d now).items key = some { value := v, expiration := 0 } ∧
    (c.set key v d now).get key t = some v := by
  have hdz : ¬ d = 0 := by omega
  have hres : c.resolveTTL d = d := by
    unfold Cache.resolveTTL
    simp [hdz]
  refine ⟨hres, ?_, ?_⟩
  · unfold Cache.set
    rw [hres]
    simp only [if_pos rfl]
    have : ¬ d > 0 := by omega
    simp [this]
  · unfold Cache.set Cache.get
    rw [hres]
    have : ¬ d > 0 := by omega
    simp [this]

/-- Witness for C10 at the empty cache with `ttl = -5`. -/
theorem set_negative_ttl_never_expires_witness :
    emptyCache.resolveTTL (-5) = -5 ∧
    (emptyCache.set "k" 7 (-5) 100).items "k" =
      some { value := 7, expiration := 0 } ∧
    (emptyCache.set "k" 7 (-5) 100).get "k" 999999999 = some 7 :=
  set_negative_ttl_never_expires emptyCache "k" 7 (-5) 100 999999999
    (by norm_num)

/-- C4: `Set` substitutes `defaultTTL` for a zero ttl (so `Set` with
ttl `0` equals `Set` with ttl `defaultExpiration`); with a positive
resolved ttl the entry expires at `now + ttl`; with both the call-site
ttl and the default zero, the entry gets the never-expire sentinel `0`
and `Get` returns the value at every instant. -/
theorem set_zero_ttl_resolution {V : Type} (c : Cache V) (key : String)
    (v : V) (d now t : Int) :
    (c.set key v 0 now = c.set key v c.defaultExpiration now) ∧
    (0 < c.resolveTTL d →
      (c.set key v d now).items key =
        some { value := v, expiration := now + c.resolveTTL d }) ∧
    (d = 0 → c.defaultExpiration = 0 →
      (c.set key v d now).items key =
        some { value := v, expiration := 0 } ∧
      (c.set key v d now).get key t = some v) := by
  refine ⟨?_, ?_, ?_⟩
  · unfold Cache.set Cache.resolveTTL
    simp
  · intro h
    have hitems := items_set_self c key v d now
    rw [if_pos h] at hitems
    exact hitems
  · intro hd hdef
    have hres : c.resolveTTL d = 0 := by
      unfold Cache.resolveTTL
      rw [if_pos hd, hdef]
    have hitems := items_set_self c key v d now
    rw [hres] at hitems
    rw [if_neg (by norm_num)] at hitems
    refine ⟨hitems, ?_⟩
    rw [get_eq _ _ _ _ hitems]
    rw [if_neg (by show ¬((0 : Int) > 0 ∧ t > (0 : Int)); simp)]

/-- Witness for C4: `Set("k", 7, 0)` on the empty cache (default TTL
`0`) stores the sentinel and `Get` far in the future returns `7`. -/
theorem set_zero_ttl_resolution_witness :
    (emptyCache.set "k" 7 0 100).items "k" =
      some { value := 7, expiration := 0 } ∧
    (emptyCache.set "k" 7 0 100).get "k" 999999999 = some 7 :=
  (set_zero_ttl_resolution emptyCache "k" 7 0 100 999999999).2.2 rfl rfl

/-- `Extend` on a present key: the stored item keeps its value and,
when the resolved duration is positive, gets expiration `now +
duration`; otherwise it is stored back unchanged. -/
theorem items_extend {V : Type} (c : Cache V) (key : String)
    (item : Item V) (d now : Int) (hfind : c.items key = some item) :
    (c.extend key d now).items key =
      some (if c.resolveTTL d > 0
            then { item with expiration := now + c.resolveTTL d }
            else item) := by
  unfold Cache.extend
  rw [hfind]
  by_cases h : c.resolveTTL d > 0
  · simp [h]
  · simp [h]

/-- C5: for a present key, `Extend(k, ttl)` resolves a zero ttl to the
default; a positive resolved ttl sets the expiration to `now + ttl`
while keeping the stored value; a zero resolved ttl leaves the entry
(value and prior expiration) untouched. -/
theorem extend_refreshes_expiration {V : Type} (c : Cache V)
    (key : String) (item : Item V) (d now : Int)
    (hfind : c.items key = some item) :
    (0 < c.resolveTTL d →
      (c.extend key d now).items key =
        some { value := item.value,
               expiration := now + c.resolveTTL d }) ∧
    (c.resolveTTL d = 0 →
      (c.extend key d now).items key = some item) := by
  constructor
  · intro h
    rw [items_extend c key item d now hfind, if_pos h]
  · intro h
    rw [items_extend c key item d now hfind, if_neg (by omega)]

/-- Witness for C5: extending `"b"` (expiring at `3600`) by `7200` at
instant `100` moves its expiration to `7300` and keeps its value. -/
theorem extend_refreshes_expiration_witness :
    (cacheB.extend "b" 7200 100).items "b" =
      some { value := 2, expiration := 7300 } := by
  have h := (extend_refreshes_expiration cacheB "b"
      { value := 2, expiration := 3600 } 7200 100 rfl).1
    (by norm_num [Cache.resolveTTL, cacheB])
  simpa [Cache.resolveTTL, cacheB] using h

/-- C6 (counterexample): in `cacheA` the key `"a"` has the concrete
expiration `5`, which is at (equal to) the sweep instant `5`, yet one
sweep pass at instant `5` keeps the entry, because the source removes
only entries with `now > item.expiration` strictly. -/
theorem sweep_keeps_entry_at_exact_expiration :
    cacheA.items "a" = some { value := 1, expiration := 5 } ∧
    (0 : Int) < 5 ∧ (5 : Int) ≤ 5 ∧
    (cacheA.deleteExpiredItems 5).items "a" =
      some { value := 1, expiration := 5 } := by
  refine ⟨rfl, by norm_num, by norm_num, ?_⟩
  rfl

/-- C6 (amended): one sweep pass removes exactly the entries whose
expiration is concrete (positive) and strictly before the instant of
the pass, and keeps every other entry (never-expire entries and
entries with expiration at or after that instant) unchanged: after the
sweep a key maps to `item` iff it mapped to `item` before and `item`
is not strictly expired. -/
theorem sweep_removes_exactly_strictly_expired {V : Type} (c : Cache V)
    (now : Int) (k : String) (item : Item V) :
    (c.deleteExpiredItems now).items k = some item ↔
      c.items k = some item ∧
        ¬(0 < item.expiration ∧ item.expiration < now) := by
  rw [items_sweep]
  cases h : c.items k with
  | none => simp
  | some it =>
    show (if it.expiration > 0 ∧ now > it.expiration then none
          else some it) = some item ↔ _
    by_cases hc : it.expiration > 0 ∧ now > it.expiration
    · rw [if_pos hc]
      constructor
      · intro h2
        exact Option.noConfusion h2
      · rintro ⟨h1, h2⟩
        cases Option.some.inj h1
        exact absurd ⟨hc.1, hc.2⟩ h2
    · rw [if_neg hc]
      constructor
      · intro h2
        cases Option.some.inj h2
        exact ⟨rfl, fun hx => hc ⟨hx.1, hx.2⟩⟩
      · rintro ⟨h1, _⟩
        exact h1

/-- Witness for C6 (amended): at sweep instant `5`, the entry with
expiration exactly `5` (not strictly past) is kept. -/
theorem sweep_removes_exactly_strictly_expired_witness :
    (cacheA.deleteExpiredItems 5).items "a" =
      some { value := 1, expiration := 5 } :=
  (sweep_removes_exactly_strictly_expired cacheA 5 "a"
    { value := 1, expiration := 5 }).mpr ⟨rfl, by norm_num⟩

/-- C7: `Delete(k)` removes the entry so a subsequent `Get(k)` returns
absent, and `Delete` on an absent key leaves the store unchanged. -/
theorem delete_removes_and_noop_when_absent {V : Type} (c : Cache V)
    (key : String) (now : Int) :
    (c.delete key).items key = none ∧
    (c.delete key).get key now = none ∧
    (c.items key = none → (c.delete key).items = c.items) := by
  have h1 : (c.delete key).items key = none := by
    unfold Cache.delete
    simp
  refine ⟨h1, get_none _ _ _ h1, ?_⟩
  intro habs
  funext k
  unfold Cache.delete
  by_cases hk : k = key
  · subst hk
    simp [habs]
  · simp [hk]

/-- Witness for C7: deleting the present key `"a"` makes `Get` return
absent; deleting the absent key `"z"` leaves the store unchanged. -/
theorem delete_removes_and_noop_when_absent_witness :
    (cacheA.delete "a").get "a" 0 = none ∧
    (cacheA.delete "z").items = cacheA.items :=
  ⟨(delete_removes_and_noop_when_absent cacheA "a" 0).2.1,
   (delete_removes_and_noop_when_absent cacheA "z" 0).2.2 rfl⟩

/-- C8: `Extend` on an absent key is a no-op: the cache is unchanged
(no entry is created) and `Get` still returns absent. -/
theorem extend_absent_noop {V : Type} (c : Cache V) (key : String)
    (d now t : Int) (habs : c.items key = none) :
    c.extend key d now = c ∧ (c.extend key d now).get key t = none := by
  have h1 : c.extend key d now = c := by
    unfold Cache.extend
    rw [habs]
  exact ⟨h1, by rw [h1]; exact get_none _ _ _ habs⟩

/-- Witness for C8 at `cacheA` and the absent key `"z"`. -/
theorem extend_absent_noop_witness :
    cacheA.extend "z" 5 0 = cacheA ∧
    (cacheA.extend "z" 5 0).get "z" 0 = none :=
  extend_absent_noop cacheA "z" 5 0 0 rfl

/-- C9: `Get` never mutates the store: in the state-passing embedding
of the source (whose body performs only a lookup and comparisons), the
post-state equals the pre-state for every key and instant — also for a
key whose entry is already past its expiration — and the returned
result is exactly the one `Get` returns. -/
theorem get_is_readonly {V : Type} (c : Cache V) (key : String)
    (now : Int) :
    (c.getS key now).2 = c ∧ (c.getS key now).1 = c.get key now := by
  unfold Cache.getS Cache.get
  cases h : c.items key with
  | none => exact ⟨rfl, rfl⟩
  | some item =>
    by_cases h1 : item.expiration > 0
    · by_cases h2 : now > item.expiration
      · simp [h1, h2]
      · simp [h1, h2]
    · simp [h1]

end ProxyHost
